import Mathlib

/-!
Shallow embedding of the Markdown-to-HTML core of the static site generator:
inline span splitting (src/markdown_inline.py), block classification and
assembly (src/markdown_block.py), and the HTML node tree with its
serialization contract (src/htmlnode.py, src/textnode.py).

Python strings are modelled as lists of characters; fallible operations
return `Except String` carrying the source's error messages.
-/

abbrev Str := List Char

def str (s : String) : Str := s.toList

/-- Python's Unicode whitespace predicate (used by str.strip and regex \s). -/
def pyIsSpace (c : Char) : Bool :=
  c = ' ' || c = '\t' || c = '\n' || c = '\r' || c = '\u000b' || c = '\u000c' ||
  c = '\u001c' || c = '\u001d' || c = '\u001e' || c = '\u001f' ||
  c = '\u0085' || c = ' ' || c = ' ' ||
  (' ' ≤ c && c ≤ ' ') ||
  c = ' ' || c = ' ' || c = ' ' || c = ' ' || c = '　'

/-- Python str.strip(): remove whitespace from both ends. -/
def pyStrip (s : Str) : Str :=
  ((s.dropWhile pyIsSpace).reverse.dropWhile pyIsSpace).reverse

/-- Line-boundary characters of Python str.splitlines. -/
def isLineBreak (c : Char) : Bool :=
  c = '\n' || c = '\r' || c = '\u000b' || c = '\u000c' ||
  c = '\u001c' || c = '\u001d' || c = '\u001e' ||
  c = '\u0085' || c = ' ' || c = ' '

/-- Python str.splitlines (fuel-indexed; fuel = length is always enough). -/
def pySplitlinesF : Nat → Str → List Str
  | _, [] => []
  | 0, s => [s]
  | fuel+1, s =>
    let line := s.takeWhile (fun c => !(isLineBreak c))
    match s.drop line.length with
    | [] => [line]
    | '\r' :: '\n' :: rest => line :: pySplitlinesF fuel rest
    | _ :: rest => line :: pySplitlinesF fuel rest

def pySplitlines (s : Str) : List Str := pySplitlinesF s.length s

/-- Python str.split(sep) for a non-empty separator
(fuel-indexed; fuel = length is always enough). -/
def pySplitF (sep : Str) : Nat → Str → List Str
  | _, [] => [[]]
  | 0, s => [s]
  | fuel+1, c :: cs =>
    if sep.isPrefixOf (c :: cs) && !sep.isEmpty then
      [] :: pySplitF sep fuel (cs.drop (sep.length - 1))
    else
      match pySplitF sep fuel cs with
      | [] => [[c]]
      | p :: ps => (c :: p) :: ps

def pySplit (sep s : Str) : List Str := pySplitF sep s.length s

/-- Python str.split(sep, 1): `some (pre, post)` when sep occurs, else `none`. -/
def pySplitOnce (sep : Str) : Str → Option (Str × Str)
  | [] => none
  | c :: cs =>
    if sep.isPrefixOf (c :: cs) then some ([], cs.drop (sep.length - 1))
    else
      match pySplitOnce sep cs with
      | some (pre, post) => some (c :: pre, post)
      | none => none

/-- Index of the first occurrence of `sep` as a sublist. -/
def firstIndexOf (sep : Str) : Str → Option Nat
  | [] => none
  | c :: cs =>
    if sep.isPrefixOf (c :: cs) then some 0
    else (firstIndexOf sep cs).map (· + 1)

/-- Join pieces with a separator (Python sep.join). -/
def joinSep (sep : Str) : List Str → Str
  | [] => []
  | [p] => p
  | p :: q :: rest => p ++ sep ++ joinSep sep (q :: rest)

/-- TextType enum of src/textnode.py. -/
inductive TextType where
  | text | bold | italic | code | link | image
deriving DecidableEq, Repr

/-- TextNode of src/textnode.py (url defaults to None at construction). -/
structure TextNode where
  text : Str
  text_type : TextType
  url : Option Str
deriving DecidableEq, Repr

/-- HTML node of src/htmlnode.py: LeafNode(tag, value, props) and
ParentNode(tag, children, props); None fields are Options, a None/empty
props dict is the empty list. -/
inductive HTMLNode where
  | LeafNode (tag : Option Str) (value : Option Str) (props : List (Str × Str))
  | ParentNode (tag : Option Str) (children : Option (List HTMLNode)) (props : List (Str × Str))

/-- HTMLNode.props_to_html: fold emitting ` key="value"` per pair. -/
def props_to_html (props : List (Str × Str)) : Str :=
  props.foldl (fun acc kv => acc ++ [' '] ++ kv.1 ++ ['=', '"'] ++ kv.2 ++ ['"']) []

/-- `<tag PROPS>` ++ body ++ `</tag>`. -/
def wrapTag (t : Str) (props : List (Str × Str)) (body : Str) : Str :=
  ('<' :: (t ++ props_to_html props ++ ['>'])) ++ body ++ ('<' :: '/' :: (t ++ ['>']))

mutual

/-- LeafNode.to_html / ParentNode.to_html of src/htmlnode.py. -/
def to_html : HTMLNode → Except String Str
  | .LeafNode tag value props =>
    match value with
    | none => .error "Invalid HTML: no value given"
    | some v =>
      match tag with
      | none => .ok v
      | some t => .ok (wrapTag t props v)
  | .ParentNode tag children props =>
    match tag with
    | none => .error "Invalid HTML: no tag given"
    | some t =>
      match children with
      | none => .error "Invalid HTML: no children nodes given"
      | some cs =>
        match children_to_html cs with
        | .error e => .error e
        | .ok body => .ok (wrapTag t props body)

/-- The child-serialization loop inside ParentNode.to_html. -/
def children_to_html : List HTMLNode → Except String Str
  | [] => .ok []
  | c :: cs =>
    match to_html c with
    | .error e => .error e
    | .ok h =>
      match children_to_html cs with
      | .error e => .error e
      | .ok t => .ok (h ++ t)

end

/-- text_node_to_html_node of src/textnode.py (an absent url renders as
the Python string "None" in the f-string attribute). -/
def text_node_to_html_node (n : TextNode) : HTMLNode :=
  match n.text_type with
  | .text => .LeafNode none (some n.text) []
  | .bold => .LeafNode (some (str "b")) (some n.text) []
  | .italic => .LeafNode (some (str "i")) (some n.text) []
  | .code => .LeafNode (some (str "code")) (some n.text) []
  | .link => .LeafNode (some (str "a")) (some n.text) [(str "href", n.url.getD (str "None"))]
  | .image => .LeafNode (some (str "img")) (some [])
      [(str "src", n.url.getD (str "None")), (str "alt", n.text)]

/-- The per-part emission loop of split_nodes_delimiter: part i is skipped
when empty, becomes a plain TEXT node at even i, and a `text_type` node at
odd i. -/
def emitParts (text_type : TextType) : Nat → List Str → List TextNode
  | _, [] => []
  | i, p :: ps =>
    (if p = [] then [] else [⟨p, if i % 2 = 0 then TextType.text else text_type, none⟩])
      ++ emitParts text_type (i + 1) ps

/-- split_nodes_delimiter of src/markdown_inline.py. -/
def split_nodes_delimiter (old_nodes : List TextNode) (delimiter : Str) (text_type : TextType) :
    Except String (List TextNode) :=
  match old_nodes with
  | [] => .ok []
  | n :: rest =>
    if n.text_type ≠ TextType.text then
      (split_nodes_delimiter rest delimiter text_type).map (n :: ·)
    else
      let split_nodes := pySplit delimiter n.text
      if split_nodes.length % 2 = 0 then
        .error "Invalid markdown: formatted section not closed"
      else
        match split_nodes_delimiter rest delimiter text_type with
        | .error e => .error e
        | .ok tail => .ok (emitParts text_type 0 split_nodes ++ tail)

/-- One attempt of the image regex at the start of the string:
the pattern is literal "![", a bracket-free alt text, "](",
a parenthesis-free url, ")". -/
def matchImageAt : Str → Option (Str × Str)
  | '!' :: '[' :: rest =>
    let alt := rest.takeWhile (fun c => c ≠ '[' && c ≠ ']')
    match rest.drop alt.length with
    | ']' :: '(' :: rest2 =>
      let url := rest2.takeWhile (fun c => c ≠ '(' && c ≠ ')')
      match rest2.drop url.length with
      | ')' :: _ => some (alt, url)
      | _ => none
    | _ => none
  | _ => none

/-- The re.findall scan of extract_markdown_images: try the pattern at each
position, and on a match continue after the matched text
(fuel-indexed; fuel = length is always enough). -/
def findImagesF : Nat → Str → List (Str × Str)
  | _, [] => []
  | 0, _ => []
  | fuel+1, c :: cs =>
    match matchImageAt (c :: cs) with
    | some (alt, url) =>
      (alt, url) :: findImagesF fuel (cs.drop (alt.length + url.length + 4))
    | none => findImagesF fuel cs

/-- extract_markdown_images of src/markdown_inline.py. -/
def extract_markdown_images (text : Str) : List (Str × Str) :=
  findImagesF text.length text

/-- One attempt of the link regex body at the start of the string:
"[", bracket-free text, "](", parenthesis-free url, ")". -/
def matchLinkAt : Str → Option (Str × Str)
  | '[' :: rest =>
    let txt := rest.takeWhile (fun c => c ≠ '[' && c ≠ ']')
    match rest.drop txt.length with
    | ']' :: '(' :: rest2 =>
      let url := rest2.takeWhile (fun c => c ≠ '(' && c ≠ ')')
      match rest2.drop url.length with
      | ')' :: _ => some (txt, url)
      | _ => none
    | _ => none
  | _ => none

/-- The re.findall scan of extract_markdown_links, with the negative
lookbehind: a position whose previous character is '!' cannot match. -/
def findLinksF : Nat → Option Char → Str → List (Str × Str)
  | _, _, [] => []
  | 0, _, _ => []
  | fuel+1, prev, c :: cs =>
    match (if prev = some '!' then none else matchLinkAt (c :: cs)) with
    | some (txt, url) =>
      (txt, url) :: findLinksF fuel (some ')') (cs.drop (txt.length + url.length + 3))
    | none => findLinksF fuel (some c) cs

/-- extract_markdown_links of src/markdown_inline.py. -/
def extract_markdown_links (text : Str) : List (Str × Str) :=
  findLinksF text.length none text

/-- The literal string "![alt](url)". -/
def imagePattern (alt url : Str) : Str :=
  str "![" ++ alt ++ str "](" ++ url ++ str ")"

/-- The literal string "[text](url)". -/
def linkPattern (txt url : Str) : Str :=
  '[' :: (txt ++ str "](" ++ url ++ str ")")

/-- The per-match loop of split_nodes_image: split the running text on the
first occurrence of the reconstructed pattern, emit the non-empty prefix as
a TEXT node and the match as an IMAGE node; after the loop a non-empty
remainder becomes a final TEXT node. -/
def emitImages : List (Str × Str) → Str → Except String (List TextNode)
  | [], t => .ok (if t = [] then [] else [⟨t, .text, none⟩])
  | (alt, url) :: ms, t =>
    match pySplitOnce (imagePattern alt url) t with
    | none => .error "Invalid markdown: image not properly formatted"
    | some (pre, post) =>
      match emitImages ms post with
      | .error e => .error e
      | .ok rest =>
        .ok ((if pre = [] then [] else [⟨pre, .text, none⟩]) ++ ⟨alt, .image, some url⟩ :: rest)

/-- split_nodes_image of src/markdown_inline.py. -/
def split_nodes_image : List TextNode → Except String (List TextNode)
  | [] => .ok []
  | n :: rest =>
    if n.text_type ≠ TextType.text then
      (split_nodes_image rest).map (n :: ·)
    else if extract_markdown_images n.text = [] then
      (split_nodes_image rest).map (n :: ·)
    else
      match emitImages (extract_markdown_images n.text) n.text with
      | .error e => .error e
      | .ok own =>
        match split_nodes_image rest with
        | .error e => .error e
        | .ok tail => .ok (own ++ tail)

/-- The per-match loop of split_nodes_link (same shape as emitImages). -/
def emitLinks : List (Str × Str) → Str → Except String (List TextNode)
  | [], t => .ok (if t = [] then [] else [⟨t, .text, none⟩])
  | (txt, url) :: ms, t =>
    match pySplitOnce (linkPattern txt url) t with
    | none => .error "Invalid markup: link not properly formatted"
    | some (pre, post) =>
      match emitLinks ms post with
      | .error e => .error e
      | .ok rest =>
        .ok ((if pre = [] then [] else [⟨pre, .text, none⟩]) ++ ⟨txt, .link, some url⟩ :: rest)

/-- split_nodes_link of src/markdown_inline.py. -/
def split_nodes_link : List TextNode → Except String (List TextNode)
  | [] => .ok []
  | n :: rest =>
    if n.text_type ≠ TextType.text then
      (split_nodes_link rest).map (n :: ·)
    else if extract_markdown_links n.text = [] then
      (split_nodes_link rest).map (n :: ·)
    else
      match emitLinks (extract_markdown_links n.text) n.text with
      | .error e => .error e
      | .ok own =>
        match split_nodes_link rest with
        | .error e => .error e
        | .ok tail => .ok (own ++ tail)

/-- text_to_text_nodes of src/markdown_inline.py: the fixed five-pass
pipeline (bold, italic, code, images, links) on a single plain node. -/
def text_to_text_nodes (text : Str) : Except String (List TextNode) := do
  let ns1 ← split_nodes_delimiter [⟨text, .text, none⟩] (str "**") .bold
  let ns2 ← split_nodes_delimiter ns1 (str "_") .italic
  let ns3 ← split_nodes_delimiter ns2 (str "`") .code
  let ns4 ← split_nodes_image ns3
  split_nodes_link ns4

/-- BlockType enum of src/markdown_block.py. -/
inductive BlockType where
  | paragraph | heading | code | quote | unordered_list | ordered_list
deriving DecidableEq, Repr

/-- markdown_to_blocks of src/markdown_block.py: split on "\n\n", strip each
piece, drop empty pieces. -/
def markdown_to_blocks (markdown : Str) : List Str :=
  ((pySplit (str "\n\n") markdown).map pyStrip).filter (fun b => !b.isEmpty)

/-- extract_title of src/markdown_block.py: index the first block (an empty
block list raises IndexError), require the "# " prefix, return the rest. -/
def extract_title (markdown : Str) : Except String Str :=
  match markdown_to_blocks markdown with
  | [] => .error "list index out of range"
  | header :: _ =>
    if (str "# ").isPrefixOf header then .ok (header.drop 2)
    else .error "Invalid Markdown: markdown must begin with h1 header"

/-- Matching of `(.+)$` without MULTILINE: at least one non-newline
character, then end of string or a single final newline. -/
def dotPlusDollar (s : Str) : Bool :=
  let content := s.takeWhile (fun c => c ≠ '\n')
  !content.isEmpty && (s.drop content.length = [] || s.drop content.length = ['\n'])

/-- Matching of `\s+(.+)$` with at least one whitespace character already
consumed: either `(.+)$` starts here, or one more whitespace is consumed. -/
def headingTailAux : Str → Bool
  | [] => false
  | c :: cs => dotPlusDollar (c :: cs) || (pyIsSpace c && headingTailAux cs)

/-- Matching of `\s+(.+)$`. -/
def headingTailMatch : Str → Bool
  | [] => false
  | c :: cs => pyIsSpace c && headingTailAux cs

/-- re.match of `^(#{1,6})\s+(.+)$`: because the character after the
hashes must be whitespace, only the full run of leading hashes can be
taken, so it must have length 1..6. -/
def headingMatch (block : Str) : Bool :=
  let hashes := block.takeWhile (fun c => c = '#')
  1 ≤ hashes.length && hashes.length ≤ 6 && headingTailMatch (block.drop hashes.length)

/-- Matching of `$` with MULTILINE: end of string or immediately before a
newline. -/
def dollarMultiline (s : Str) : Bool :=
  s.isEmpty || s.head? = some '\n'

/-- Search for a closing "```" whose end position satisfies the MULTILINE
`$` (this is the `[\s\S]*?```$` part of the code-fence regex). -/
def hasCloseFence : Str → Bool
  | [] => false
  | c :: cs =>
    ((str "```").isPrefixOf (c :: cs) && dollarMultiline (cs.drop 2)) || hasCloseFence cs

/-- re.match of `^```[\s\S]*?```$` with MULTILINE and DOTALL. -/
def codeMatch (block : Str) : Bool :=
  (str "```").isPrefixOf block && hasCloseFence (block.drop 3)

/-- re.match of `^>.*$` on a single line. -/
def quoteLine (line : Str) : Bool :=
  line.head? = some '>'

/-- re.match of `^- .+$` on a single line. -/
def ulLine (line : Str) : Bool :=
  (str "- ").isPrefixOf line && 3 ≤ line.length

/-- Decimal value of a digit string (Python int on the regex group). -/
def digitsToNat (ds : Str) : Nat :=
  ds.foldl (fun acc c => acc * 10 + (c.toNat - '0'.toNat)) 0

/-- re.match of `^(\d+)\. .+` on a single line, returning the integer value
of the leading digit group. -/
def olMatch (line : Str) : Option Nat :=
  let ds := line.takeWhile Char.isDigit
  let rest := line.drop ds.length
  if !ds.isEmpty && (str ". ").isPrefixOf rest && 3 ≤ rest.length then
    some (digitsToNat ds)
  else none

/-- The ordered-list check of block_to_block_type: every line matches the
numbered pattern and its number equals its 1-based position (enumerate
with start=i). -/
def olCheckFrom : Nat → List Str → Bool
  | _, [] => true
  | i, l :: ls =>
    (match olMatch l with
     | some n => n = i
     | none => false) && olCheckFrom (i + 1) ls

/-- The non-blank lines of a block
(`[line for line in markdown_block.splitlines() if line.strip()]`). -/
def filteredLines (block : Str) : List Str :=
  (pySplitlines block).filter (fun l => !(pyStrip l).isEmpty)

/-- block_to_block_type of src/markdown_block.py. Indexing the first
character of an empty block raises IndexError. -/
def block_to_block_type (markdown_block : Str) : Except String BlockType :=
  match markdown_block.head? with
  | none => .error "string index out of range"
  | some c =>
    if c = '#' || c = '`' then
      if headingMatch markdown_block then .ok .heading
      else if codeMatch markdown_block then .ok .code
      else .ok .paragraph
    else
      let lines := filteredLines markdown_block
      if lines.all quoteLine then .ok .quote
      else if lines.all ulLine then .ok .unordered_list
      else if olCheckFrom 1 lines then .ok .ordered_list
      else .ok .paragraph

/-- text_to_children of src/markdown_block.py. -/
def text_to_children (text : Str) : Except String (List HTMLNode) :=
  (text_to_text_nodes text).map (fun ns => ns.map text_node_to_html_node)

/-- paragraph_to_html_node of src/markdown_block.py. -/
def paragraph_to_html_node (block : Str) : Except String HTMLNode := do
  let paragraph := joinSep (str " ") (pySplit (str "\n") block)
  let children ← text_to_children paragraph
  .ok (.ParentNode (some (str "p")) (some children) [])

/-- heading_to_html_node of src/markdown_block.py. -/
def heading_to_html_node (block : Str) : Except String HTMLNode := do
  let level := (block.takeWhile (fun c => c = '#')).length
  if block.length ≤ level + 1 then
    .error ("invalid heading level: " ++ toString level)
  else do
    let children ← text_to_children (block.drop (level + 1))
    .ok (.ParentNode (some ('h' :: str (toString level))) (some children) [])

/-- code_to_html_node of src/markdown_block.py: block[4:-3] is the interior,
kept as a single raw TEXT node inside <pre><code>. -/
def code_to_html_node (block : Str) : Except String HTMLNode := do
  if !((str "```").isPrefixOf block) || !((str "```").isSuffixOf block) then
    .error "invalid code block"
  else
    let text := (block.take (block.length - 3)).drop 4
    let child := text_node_to_html_node ⟨text, .text, none⟩
    .ok (.ParentNode (some (str "pre"))
          (some [.ParentNode (some (str "code")) (some [child]) []]) [])

/-- olist_to_html_node of src/markdown_block.py: each line loses its first
3 characters. -/
def olist_to_html_node (block : Str) : Except String HTMLNode := do
  let items ← (pySplit (str "\n") block).mapM (fun item => do
    let children ← text_to_children (item.drop 3)
    Except.ok (HTMLNode.ParentNode (some (str "li")) (some children) []))
  .ok (.ParentNode (some (str "ol")) (some items) [])

/-- ulist_to_html_node of src/markdown_block.py: each line loses its first
2 characters. -/
def ulist_to_html_node (block : Str) : Except String HTMLNode := do
  let items ← (pySplit (str "\n") block).mapM (fun item => do
    let children ← text_to_children (item.drop 2)
    Except.ok (HTMLNode.ParentNode (some (str "li")) (some children) []))
  .ok (.ParentNode (some (str "ul")) (some items) [])

/-- quote_to_html_node of src/markdown_block.py: every raw line (split on
"\n") must start with '>', then loses its leading '>' run and surrounding
whitespace; lines are joined with single spaces. -/
def quote_to_html_node (block : Str) : Except String HTMLNode := do
  let newLines ← (pySplit (str "\n") block).mapM (fun line =>
    if line.head? = some '>' then
      Except.ok (pyStrip (line.dropWhile (fun c => c = '>')))
    else
      Except.error "invalid quote block")
  let children ← text_to_children (joinSep (str " ") newLines)
  .ok (.ParentNode (some (str "blockquote")) (some children) [])

/-- block_to_html_node of src/markdown_block.py. -/
def block_to_html_node (block : Str) : Except String HTMLNode := do
  match ← block_to_block_type block with
  | .paragraph => paragraph_to_html_node block
  | .heading => heading_to_html_node block
  | .code => code_to_html_node block
  | .ordered_list => olist_to_html_node block
  | .unordered_list => ulist_to_html_node block
  | .quote => quote_to_html_node block

/-- markdown_to_html_node of src/markdown_block.py: one child per block,
wrapped in a "div" parent. -/
def markdown_to_html_node (markdown : Str) : Except String HTMLNode := do
  let children ← (markdown_to_blocks markdown).mapM block_to_html_node
  .ok (.ParentNode (some (str "div")) (some children) [])

/-- Re-wrap a span in the syntax markers that produced it (the
reconstruction recipe of the spec's ordering invariant). -/
def rewrap (n : TextNode) : Str :=
  match n.text_type with
  | .text => n.text
  | .bold => str "**" ++ n.text ++ str "**"
  | .italic => '_' :: n.text ++ ['_']
  | .code => '`' :: n.text ++ ['`']
  | .image => imagePattern n.text (n.url.getD [])
  | .link => linkPattern n.text (n.url.getD [])

/-- Concatenate the re-wrapped contents of a span list. -/
def reconstruct (ns : List TextNode) : Str :=
  (ns.map rewrap).flatten

/-- Every odd-indexed (0-based) part of a split is non-empty. -/
def oddPartsNonempty : List Str → Bool
  | [] => true
  | [_] => true
  | _ :: p :: rest => !p.isEmpty && oddPartsNonempty rest

/-- No plain node of the list splits on `d` with an empty odd-indexed
(delimited) part. -/
def noEmptyOddParts (d : Str) (ns : List TextNode) : Bool :=
  ns.all (fun n => n.text_type != TextType.text || oddPartsNonempty (pySplit d n.text))

/-- None of the three delimiter passes of text_to_text_nodes meets an empty
odd-indexed part on the given input. -/
def pipelineClean (t : Str) : Bool :=
  noEmptyOddParts (str "**") [⟨t, .text, none⟩] &&
  (match split_nodes_delimiter [⟨t, .text, none⟩] (str "**") .bold with
   | .error _ => true
   | .ok ns1 =>
     noEmptyOddParts (str "_") ns1 &&
     (match split_nodes_delimiter ns1 (str "_") .italic with
      | .error _ => true
      | .ok ns2 => noEmptyOddParts (str "`") ns2))

/-- Sequential composition of a node-wise pass, concatenating the emitted
nodes and propagating the first failure. -/
def exceptConcatMap (f : TextNode → Except String (List TextNode)) :
    List TextNode → Except String (List TextNode)
  | [] => .ok []
  | n :: ns =>
    match f n with
    | .error e => .error e
    | .ok h =>
      match exceptConcatMap f ns with
      | .error e => .error e
      | .ok t => .ok (h ++ t)

/-- The delimiter pass as worded by the claim: non-Plain spans are kept
unchanged; a Plain span is split on the delimiter, failing exactly when the
part count is even; otherwise odd-indexed parts become spans of the given
kind, even-indexed parts Plain spans, and empty parts are dropped. -/
def delimiterNodeClaim (d : Str) (k : TextType) (n : TextNode) :
    Except String (List TextNode) :=
  if n.text_type ≠ TextType.text then .ok [n]
  else
    let parts := pySplit d n.text
    if parts.length % 2 = 0 then
      .error "Invalid markdown: formatted section not closed"
    else
      .ok ((parts.enum.map (fun pi =>
        if pi.2 = [] then []
        else [⟨pi.2, if pi.1 % 2 = 1 then k else TextType.text, none⟩])).flatten)

def split_nodes_delimiter_claim (ns : List TextNode) (d : Str) (k : TextType) :
    Except String (List TextNode) :=
  exceptConcatMap (delimiterNodeClaim d k) ns

/-- A block contains, after its opening "```", a closing "```" standing at
the end of the block or immediately before a newline. -/
def hasClosingFenceProp (b : Str) : Prop :=
  ∃ mid tail, b = str "```" ++ mid ++ str "```" ++ tail ∧
    (tail = [] ∨ tail.head? = some '\n')

/-- A line of the form "N. content": a non-empty digit group reading as n,
then ". ", then at least one character. -/
def olSpecLine (line : Str) (n : Nat) : Prop :=
  ∃ ds rest, line = ds ++ '.' :: ' ' :: rest ∧ ds ≠ [] ∧
    (∀ c ∈ ds, c.isDigit) ∧ digitsToNat ds = n ∧ rest ≠ []

/-- Every line of the list is numbered by its 1-based position. -/
def olPositions (lines : List Str) : Prop :=
  ∀ i (h : i < lines.length), olSpecLine (lines.get ⟨i, h⟩) (i + 1)

/-- The link pass as worded by the amended claim: for each regex match in
order, the running text is cut at the first occurrence of the literal
string "[text](url)" (which may precede the regex match position); the
prefix is emitted as a Plain span when non-empty, then the Link span;
after the last match a non-empty remainder becomes a final Plain span. -/
def linkEmitClaim : List (Str × Str) → Str → Except String (List TextNode)
  | [], t => .ok (if t = [] then [] else [⟨t, .text, none⟩])
  | (txt, url) :: ms, t =>
    match firstIndexOf (linkPattern txt url) t with
    | none => .error "Invalid markup: link not properly formatted"
    | some i =>
      match linkEmitClaim ms (t.drop (i + (txt.length + url.length + 4))) with
      | .error e => .error e
      | .ok rest =>
        .ok ((if i = 0 then [] else [⟨t.take i, .text, none⟩]) ++ ⟨txt, .link, some url⟩ :: rest)

def split_nodes_link_claim : List TextNode → Except String (List TextNode) :=
  exceptConcatMap (fun n =>
    if n.text_type ≠ TextType.text then .ok [n]
    else
      match extract_markdown_links n.text with
      | [] => .ok [n]
      | m :: ms => linkEmitClaim (m :: ms) n.text)

/-- The claim-side serialization of a child sequence: each child's
serialization, in order. -/
def serializeEach : List HTMLNode → Except String (List Str)
  | [] => .ok []
  | c :: cs =>
    match to_html c with
    | .error e => .error e
    | .ok h =>
      match serializeEach cs with
      | .error e => .error e
      | .ok t => .ok (h :: t)

theorem children_to_html_eq_serializeEach (cs : List HTMLNode) :
    children_to_html cs = (serializeEach cs).map List.flatten := by
  induction cs with
  | nil => rfl
  | cons c cs ih =>
    simp only [children_to_html, serializeEach]
    cases to_html c with
    | error e => rfl
    | ok h =>
      rw [ih]
      cases serializeEach cs with
      | error e => rfl
      | ok t => simp [Except.map, List.flatten_cons]

/-- C1: rendering the document "# T\n\n- x\n- y" and serializing the result
produces exactly "<div><h1>T</h1><ul><li>x</li><li>y</li></ul></div>": a div
whose children are an h1 containing "T" and a ul with two li nodes, in
source order. -/
theorem render_document_round_trip :
    (markdown_to_html_node (str "# T\n\n- x\n- y")).bind to_html =
      Except.ok (str "<div><h1>T</h1><ul><li>x</li><li>y</li></ul></div>") := by
  rfl

/-- C9: serializing a Parent node fails with the missing-tag error when the
tag is null and the missing-children error when the children sequence is
null; otherwise it wraps the in-order concatenation of the children's
serializations in the tag, and an empty (but non-null) children sequence
serializes to an empty body, which is distinct from the missing-children
failure. -/
theorem parent_serialization_contract :
    (∀ ch props, to_html (.ParentNode none ch props) =
        Except.error "Invalid HTML: no tag given")
  ∧ (∀ t props, to_html (.ParentNode (some t) none props) =
        Except.error "Invalid HTML: no children nodes given")
  ∧ (∀ t cs props, to_html (.ParentNode (some t) (some cs) props) =
        (serializeEach cs).map (fun hs => wrapTag t props hs.flatten))
  ∧ (∀ t props, to_html (.ParentNode (some t) (some []) props) =
        Except.ok (wrapTag t props []))
  ∧ (∀ t props, to_html (.ParentNode (some t) (some []) props) ≠
        to_html (.ParentNode (some t) none props)) := by
  refine ⟨fun ch props => rfl, fun t props => rfl, fun t cs props => ?_,
    fun t props => rfl, fun t props => by simp [to_html, children_to_html]⟩
  show (match children_to_html cs with
        | Except.error e => Except.error e
        | Except.ok body => Except.ok (wrapTag t props body)) = _
  rw [children_to_html_eq_serializeEach]
  cases serializeEach cs with
  | error e => rfl
  | ok hs => rfl

/-- C10: the whitespace-only interior line of ">a\n \n>b" is invisible to
classification (which filters blank lines) but fatal to quote assembly
(which re-checks every raw line): the block classifies as Quote yet
quote_to_html_node fails with the invalid-quote-block error. -/
theorem quote_classify_assemble_mismatch :
    block_to_block_type (str ">a\n \n>b") = Except.ok BlockType.quote
  ∧ quote_to_html_node (str ">a\n \n>b") = Except.error "invalid quote block" := by
  exact ⟨rfl, rfl⟩

/-- C8: extract_title segments the document into blocks and inspects only
the first one: a "# "-prefixed first block yields the remainder as title,
any other first block fails with the missing-h1 error, and a document with
no blocks fails indexing the absent first block. -/
theorem extract_title_contract :
    extract_title (str "# Title\n\nbody") = Except.ok (str "Title")
  ∧ extract_title (str "no title") =
      Except.error "Invalid Markdown: markdown must begin with h1 header"
  ∧ (∀ md b rest, markdown_to_blocks md = b :: rest →
      extract_title md =
        (if (str "# ").isPrefixOf b then Except.ok (b.drop 2)
         else Except.error "Invalid Markdown: markdown must begin with h1 header"))
  ∧ (∀ md, markdown_to_blocks md = [] →
      extract_title md = Except.error "list index out of range") := by
  refine ⟨rfl, rfl, fun md b rest h => ?_, fun md h => ?_⟩
  · simp only [extract_title, h]
  · simp only [extract_title, h]

theorem extract_title_contract_witness :
    markdown_to_blocks (str "a") = [str "a"]
  ∧ extract_title (str "a") =
      Except.error "Invalid Markdown: markdown must begin with h1 header" := by
  refine ⟨rfl, ?_⟩
  have h := extract_title_contract.2.2.1 (str "a") (str "a") [] rfl
  simpa using h

/-- C5 counterexample: classification is not total on the empty string; the
code indexes the first character and fails. -/
theorem classify_empty_fails :
    block_to_block_type (str "") = Except.error "string index out of range" := by
  rfl

/-- C5 (amended): classification is total on every non-empty block string:
it returns exactly one block kind and never fails; the empty string is the
sole exception, raising an index error. -/
theorem classify_total_on_nonempty :
    ∀ b : Str, b ≠ [] → ∃ t, block_to_block_type b = Except.ok t := by
  intro b hb
  cases b with
  | nil => exact absurd rfl hb
  | cons c cs =>
    simp only [block_to_block_type, List.head?]
    split
    · split
      · exact ⟨_, rfl⟩
      · split
        · exact ⟨_, rfl⟩
        · exact ⟨_, rfl⟩
    · split
      · exact ⟨_, rfl⟩
      · split
        · exact ⟨_, rfl⟩
        · split
          · exact ⟨_, rfl⟩
          · exact ⟨_, rfl⟩

theorem classify_total_on_nonempty_witness :
    ∃ t, block_to_block_type (str "x") = Except.ok t :=
  classify_total_on_nonempty (str "x") (by decide)

theorem hasCloseFence_iff (s : Str) : hasCloseFence s = true ↔
    ∃ pre post, s = pre ++ str "```" ++ post ∧ (post = [] ∨ post.head? = some '\n') := by
  induction s with
  | nil =>
    constructor
    · intro h; simp [hasCloseFence] at h
    · rintro ⟨pre, post, h, -⟩
      have hl := congrArg List.length h
      have h3 : (str "```").length = 3 := rfl
      simp [h3] at hl
      omega
  | cons c cs ih =>
    simp only [hasCloseFence, Bool.or_eq_true, Bool.and_eq_true, ih]
    constructor
    · rintro (⟨hpre, hdol⟩ | ⟨pre, post, h, hp⟩)
      · rw [List.isPrefixOf_iff_prefix] at hpre
        obtain ⟨t, ht⟩ := hpre
        have ht' : '`' :: '`' :: '`' :: t = c :: cs := ht
        injection ht' with h1 h2
        subst h1
        refine ⟨[], t, ?_, ?_⟩
        · rw [← h2]; rfl
        · rw [← h2] at hdol
          simpa [dollarMultiline, List.isEmpty_iff] using hdol
      · exact ⟨c :: pre, post, by simp [h], hp⟩
    · rintro ⟨pre, post, h, hp⟩
      cases pre with
      | nil =>
        simp only [List.nil_append] at h
        left
        have ht' : c :: cs = '`' :: '`' :: '`' :: post := h
        injection ht' with h1 h2
        subst h1
        constructor
        · rw [List.isPrefixOf_iff_prefix]
          exact ⟨post, by rw [h2]; rfl⟩
        · rw [h2]
          show dollarMultiline post = true
          rcases hp with hp | hp
          · simp [dollarMultiline, hp]
          · simp [dollarMultiline, hp]
      | cons p ps =>
        simp only [List.cons_append] at h
        injection h with h1 h2
        right
        exact ⟨ps, post, h2, hp⟩

theorem codeMatch_iff (b : Str) : codeMatch b = true ↔ hasClosingFenceProp b := by
  simp only [codeMatch, Bool.and_eq_true, hasCloseFence_iff, hasClosingFenceProp]
  constructor
  · rintro ⟨hpre, pre, post, hdrop, hp⟩
    rw [List.isPrefixOf_iff_prefix] at hpre
    obtain ⟨t, ht⟩ := hpre
    have hdrop3 : b.drop 3 = t := by
      rw [← ht]
      exact List.drop_left (str "```") t
    rw [hdrop3] at hdrop
    refine ⟨pre, post, ?_, hp⟩
    rw [← ht, hdrop]
    simp [List.append_assoc]
  · rintro ⟨mid, tail, hb, hp⟩
    constructor
    · rw [List.isPrefixOf_iff_prefix]
      exact ⟨mid ++ str "```" ++ tail, by rw [hb]; simp [List.append_assoc]⟩
    · refine ⟨mid, tail, ?_, hp⟩
      rw [hb]
      have : List.drop 3 (str "```" ++ (mid ++ str "```" ++ tail)) = mid ++ str "```" ++ tail :=
        List.drop_left (str "```") _
      simp only [List.append_assoc] at this ⊢
      exact this

/-- C4 counterexample: the block "```a```\nx" starts with a fence and does
not end with one, yet classifies as CodeFence, because the regex uses
MULTILINE `$`, which also matches before an interior newline. -/
theorem code_fence_counterexample :
    block_to_block_type (str "```a```\nx") = Except.ok BlockType.code
  ∧ (str "```").isSuffixOf (str "```a```\nx") = false := ⟨rfl, rfl⟩

/-- C4 (amended): for blocks whose first character is a backtick,
classification returns CodeFence exactly when the block starts with "```"
and contains a later closing "```" standing at the end of the block or
immediately before a newline; with no such closing fence the block falls
to Paragraph. -/
theorem code_fence_classification :
    ∀ b : Str, b.head? = some '`' →
      ((block_to_block_type b = Except.ok BlockType.code ↔ hasClosingFenceProp b)
      ∧ (¬ hasClosingFenceProp b → block_to_block_type b = Except.ok BlockType.paragraph)) := by
  intro b hb
  cases b with
  | nil => simp at hb
  | cons c cs =>
    have hc : c = '`' := by simpa using hb
    subst hc
    have hhm : headingMatch ('`' :: cs) = false := by
      simp [headingMatch, List.takeWhile_cons]
    have hcls : block_to_block_type ('`' :: cs) =
        (if codeMatch ('`' :: cs) = true then Except.ok BlockType.code
         else Except.ok BlockType.paragraph) := by
      simp [block_to_block_type, hhm]
    rw [hcls]
    by_cases hcm : codeMatch ('`' :: cs) = true
    · rw [if_pos hcm]
      have hp := (codeMatch_iff _).mp hcm
      exact ⟨⟨fun _ => hp, fun _ => rfl⟩, fun hn => absurd hp hn⟩
    · rw [if_neg hcm]
      refine ⟨⟨fun h => ?_, fun hp => absurd ((codeMatch_iff _).mpr hp) hcm⟩, fun _ => rfl⟩
      exact absurd h (by simp)

theorem code_fence_classification_witness :
    block_to_block_type (str "```x```") = Except.ok BlockType.code :=
  (code_fence_classification (str "```x```") rfl).1.mpr ⟨str "x", [], rfl, Or.inl rfl⟩

theorem drop_takeWhile_length (p : Char → Bool) (l : Str) :
    l.drop (l.takeWhile p).length = l.dropWhile p := by
  induction l with
  | nil => rfl
  | cons c cs ih =>
    by_cases h : p c = true
    · simp [List.takeWhile_cons, List.dropWhile_cons, h, ih]
    · simp [List.takeWhile_cons, List.dropWhile_cons, h]

theorem takeWhile_all_append (p : Char → Bool) (xs ys : Str) (y : Char)
    (hxs : ∀ x ∈ xs, p x = true) (hy : p y = false) :
    (xs ++ y :: ys).takeWhile p = xs := by
  induction xs with
  | nil => simp [List.takeWhile_cons, hy]
  | cons x xs ih =>
    have hx : p x = true := hxs x (by simp)
    rw [List.cons_append, List.takeWhile_cons, if_pos hx,
      ih (fun a ha => hxs a (by simp [ha]))]

theorem olMatch_some_iff (l : Str) (n : Nat) : olMatch l = some n ↔ olSpecLine l n := by
  constructor
  · intro h
    simp only [olMatch] at h
    by_cases hc : (!(l.takeWhile Char.isDigit).isEmpty &&
        (str ". ").isPrefixOf (l.drop (l.takeWhile Char.isDigit).length) &&
        decide (3 ≤ (l.drop (l.takeWhile Char.isDigit).length).length)) = true
    · obtain ⟨⟨hne, hpre⟩, hlen⟩ := by
        simpa only [Bool.and_eq_true] using hc
      rw [if_pos hc] at h
      rw [List.isPrefixOf_iff_prefix] at hpre
      obtain ⟨t, ht⟩ := hpre
      have hrest : l.drop (l.takeWhile Char.isDigit).length = '.' :: ' ' :: t := by
        rw [← ht]; rfl
      have hlen' : 3 ≤ (l.drop (l.takeWhile Char.isDigit).length).length :=
        of_decide_eq_true hlen
      have htne : t ≠ [] := by
        intro he
        rw [hrest, he] at hlen'
        simp at hlen'
      refine ⟨l.takeWhile Char.isDigit, t, ?_, ?_, ?_, by simpa using h, htne⟩
      · conv_lhs => rw [← List.takeWhile_append_dropWhile Char.isDigit l]
        rw [← drop_takeWhile_length Char.isDigit l, hrest]
      · simpa [List.isEmpty_iff] using hne
      · intro c hcm; exact List.mem_takeWhile_imp hcm
    · rw [if_neg hc] at h; exact absurd h (by simp)
  · rintro ⟨ds, rest, hl, hne, hdig, hn, hrest⟩
    have htw : l.takeWhile Char.isDigit = ds := by
      rw [hl]
      exact takeWhile_all_append _ _ _ _ hdig (by decide)
    have hdrop : l.drop ds.length = '.' :: ' ' :: rest := by
      rw [hl]; exact List.drop_left ds _
    have hcond : (!ds.isEmpty && (str ". ").isPrefixOf (l.drop ds.length) &&
        decide (3 ≤ (l.drop ds.length).length)) = true := by
      rw [hdrop]
      simp only [Bool.and_eq_true]
      refine ⟨⟨?_, ?_⟩, ?_⟩
      · simpa [List.isEmpty_iff] using hne
      · rw [List.isPrefixOf_iff_prefix]; exact ⟨rest, rfl⟩
      · cases rest with
        | nil => exact absurd rfl hrest
        | cons r rs => simp
    simp only [olMatch, htw]
    rw [if_pos hcond, hn]

theorem olCheckFrom_iff (lines : List Str) : ∀ k, olCheckFrom k lines = true ↔
    (∀ i (h : i < lines.length), olSpecLine (lines.get ⟨i, h⟩) (k + i)) := by
  induction lines with
  | nil =>
    intro k
    constructor
    · intro _ i h; exact absurd h (by simp)
    · intro _; rfl
  | cons l ls ih =>
    intro k
    simp only [olCheckFrom, Bool.and_eq_true]
    constructor
    · rintro ⟨h1, h2⟩ i hi
      have hml : olMatch l = some k := by
        cases hm : olMatch l with
        | none => rw [hm] at h1; exact absurd h1 (by simp)
        | some m =>
          rw [hm] at h1
          have hmk : m = k := by simpa using h1
          exact congrArg some hmk
      match i, hi with
      | 0, _ => simpa using (olMatch_some_iff l k).mp hml
      | Nat.succ j, hj =>
        have hje := (ih (k + 1)).mp h2 j (by simpa using hj)
        have hadd : k + 1 + j = k + (j + 1) := by omega
        rw [hadd] at hje
        simpa using hje
    · intro h
      refine ⟨?_, ?_⟩
      · have h0 := h 0 (by simp)
        have h0' : olSpecLine l k := by simpa using h0
        rw [(olMatch_some_iff l k).mpr h0']
        simp
      · rw [ih (k + 1)]
        intro j hj
        have hje := h (j + 1) (by simpa using hj)
        have hadd : k + (j + 1) = k + 1 + j := by omega
        rw [hadd] at hje
        simpa using hje

theorem olSpecLine_head (l : Str) (n : Nat) (h : olSpecLine l n) :
    ∃ d rest, l = d :: rest ∧ d.isDigit = true := by
  obtain ⟨ds, r, hl, hne, hdig, -, -⟩ := h
  cases ds with
  | nil => exact absurd rfl hne
  | cons d ds' =>
    exact ⟨d, ds' ++ '.' :: ' ' :: r, by simpa using hl, hdig d (by simp)⟩

theorem olPositions_head_not_quote_ul (l : Str) (ls : List Str) (h : olPositions (l :: ls)) :
    quoteLine l = false ∧ ulLine l = false := by
  have h0 : olSpecLine l 1 := by
    have h00 := h 0 (by simp)
    simpa using h00
  obtain ⟨d, rest, hl, hd⟩ := olSpecLine_head l 1 h0
  subst hl
  constructor
  · simp only [quoteLine, List.head?_cons]
    simp only [decide_eq_false_iff_not]
    intro he
    have hdg : d = '>' := by simpa using he
    rw [hdg] at hd
    exact absurd hd (by decide)
  · simp only [ulLine]
    cases hp : (str "- ").isPrefixOf (d :: rest) with
    | false => simp [hp]
    | true =>
      rw [List.isPrefixOf_iff_prefix] at hp
      obtain ⟨t, ht⟩ := hp
      have hdm : d = '-' := by
        have ht' : '-' :: ' ' :: t = d :: rest := ht
        injection ht' with a b
        exact a.symm
      rw [hdm] at hd
      exact absurd hd (by decide)

/-- C6: for blocks not starting with '#' or a backtick and having at least
one non-blank line, classification yields OrderedList exactly when every
non-blank line, in order, reads "N. content" with N equal to its 1-based
position among the non-blank lines; "1. a\n3. b" has a gap and falls to
Paragraph. -/
theorem ordered_list_classification :
    (∀ b : Str, b.head? ≠ some '#' → b.head? ≠ some '`' → filteredLines b ≠ [] →
      (block_to_block_type b = Except.ok BlockType.ordered_list ↔ olPositions (filteredLines b)))
  ∧ block_to_block_type (str "1. a\n3. b") = Except.ok BlockType.paragraph := by
  refine ⟨?_, rfl⟩
  intro b h1 h2 h3
  cases b with
  | nil => exact absurd rfl h3
  | cons c cs =>
    have h1' : c ≠ '#' := by simpa using h1
    have h2' : c ≠ '`' := by simpa using h2
    have hc : (c = '#' || c = '`') = false := by
      simp only [Bool.or_eq_false_iff, decide_eq_false_iff_not]
      exact ⟨h1', h2'⟩
    obtain ⟨l, ls, hLeq⟩ : ∃ l ls, filteredLines (c :: cs) = l :: ls := by
      cases hfl : filteredLines (c :: cs) with
      | nil => exact absurd hfl h3
      | cons l ls => exact ⟨l, ls, rfl⟩
    simp only [block_to_block_type, List.head?_cons]
    rw [if_neg (by rw [hc]; exact Bool.false_ne_true)]
    rw [hLeq]
    by_cases hq : (l :: ls).all quoteLine = true
    · rw [if_pos hq]
      constructor
      · intro he; exact absurd he (by simp)
      · intro hp
        have hql := (olPositions_head_not_quote_ul l ls hp).1
        rw [List.all_cons, hql] at hq
        simp at hq
    · rw [if_neg hq]
      by_cases hu : (l :: ls).all ulLine = true
      · rw [if_pos hu]
        constructor
        · intro he; exact absurd he (by simp)
        · intro hp
          have hul := (olPositions_head_not_quote_ul l ls hp).2
          rw [List.all_cons, hul] at hu
          simp at hu
      · rw [if_neg hu]
        by_cases ho : olCheckFrom 1 (l :: ls) = true
        · rw [if_pos ho]
          constructor
          · intro _
            simp only [olPositions]
            intro i hi
            have hoi := (olCheckFrom_iff (l :: ls) 1).mp ho i hi
            rwa [Nat.add_comm 1 i] at hoi
          · intro _; rfl
        · rw [if_neg ho]
          constructor
          · intro he; exact absurd he (by simp)
          · intro hp
            apply absurd ?_ ho
            rw [olCheckFrom_iff (l :: ls) 1]
            intro i hi
            have hpi := hp i hi
            rwa [Nat.add_comm 1 i]

theorem ordered_list_classification_witness :
    (block_to_block_type (str "1. a\n2. b") = Except.ok BlockType.ordered_list) ↔
      olPositions (filteredLines (str "1. a\n2. b")) :=
  ordered_list_classification.1 (str "1. a\n2. b") (by decide) (by decide) (by decide)

theorem emitParts_enumFrom (k : TextType) : ∀ (i : Nat) (ps : List Str),
    emitParts k i ps = ((ps.enumFrom i).map (fun pi =>
      if pi.2 = [] then []
      else [⟨pi.2, if pi.1 % 2 = 1 then k else TextType.text, none⟩])).flatten := by
  intro i ps
  induction ps generalizing i with
  | nil => rfl
  | cons p ps ih =>
    simp only [emitParts, List.enumFrom_cons, List.map_cons, List.flatten_cons, ih (i + 1)]
    congr 1
    by_cases hp : p = []
    · simp [hp]
    · rcases Nat.mod_two_eq_zero_or_one i with h | h <;> simp [hp, h]

/-- C3: the delimiter pass keeps non-Plain spans unchanged and, for each
Plain span, splits its content on the delimiter, failing exactly when the
part count is even (an unclosed delimiter); odd-indexed parts become spans
of the requested kind, even-indexed parts Plain spans, and empty parts are
dropped. In particular "**bold**" yields the single Bold span "bold" and
"a `code" fails with the unterminated-delimiter error. -/
theorem delimiter_pass_spec :
    (∀ (ns : List TextNode) (d : Str) (k : TextType),
      split_nodes_delimiter ns d k = split_nodes_delimiter_claim ns d k)
  ∧ text_to_text_nodes (str "**bold**") = Except.ok [⟨str "bold", TextType.bold, none⟩]
  ∧ text_to_text_nodes (str "a `code") =
      Except.error "Invalid markdown: formatted section not closed" := by
  refine ⟨?_, rfl, rfl⟩
  intro ns d k
  induction ns with
  | nil => rfl
  | cons n ns ih =>
    simp only [split_nodes_delimiter, split_nodes_delimiter_claim, exceptConcatMap,
      delimiterNodeClaim]
    rw [← split_nodes_delimiter_claim] ; rw [← ih]
    by_cases ht : n.text_type ≠ TextType.text
    · rw [if_pos ht, if_pos ht]
      cases split_nodes_delimiter ns d k with
      | error e => rfl
      | ok t => simp [Except.map]
    · rw [if_neg ht, if_neg ht]
      by_cases he : (pySplit d n.text).length % 2 = 0
      · rw [if_pos he, if_pos he]
      · rw [if_neg he, if_neg he]
        cases split_nodes_delimiter ns d k with
        | error e => rfl
        | ok t =>
          rw [emitParts_enumFrom k 0]
          simp [List.enum]

theorem pySplitOnce_eq_firstIndexOf (sep : Str) (hsep : sep ≠ []) : ∀ t : Str,
    pySplitOnce sep t =
      (firstIndexOf sep t).map (fun i => (t.take i, t.drop (i + sep.length))) := by
  intro t
  induction t with
  | nil => rfl
  | cons c cs ih =>
    obtain ⟨s0, sep', hs⟩ : ∃ s0 sep', sep = s0 :: sep' := by
      cases sep with
      | nil => exact absurd rfl hsep
      | cons s0 sep' => exact ⟨s0, sep', rfl⟩
    by_cases hp : sep.isPrefixOf (c :: cs) = true
    · simp only [pySplitOnce, firstIndexOf, if_pos hp, Option.map_some]
      subst hs
      simp [List.length_cons, List.drop_succ_cons]
    · simp only [pySplitOnce, firstIndexOf, if_neg hp, ih]
      cases firstIndexOf sep cs with
      | none => rfl
      | some i =>
        subst hs
        have harith : i + 1 + (s0 :: sep').length = (i + (s0 :: sep').length) + 1 := by omega
        simp only [List.length_cons, Option.map_some]
        have h2 : i + 1 + (sep'.length + 1) = i + (sep'.length + 1) + 1 := by omega
        simp [List.take_succ_cons, h2, List.drop_succ_cons]

theorem linkPattern_length (txt url : Str) :
    (linkPattern txt url).length = txt.length + url.length + 4 := by
  simp only [linkPattern, str, List.length_cons, List.length_append]
  have h2 : ("](".toList).length = 2 := rfl
  have h1 : (")".toList).length = 1 := rfl
  omega


theorem emitLinks_eq_claim : ∀ (ms : List (Str × Str)) (t : Str),
    emitLinks ms t = linkEmitClaim ms t := by
  intro ms
  induction ms with
  | nil => intro t; rfl
  | cons m ms ih =>
    intro t
    obtain ⟨txt, url⟩ := m
    have hne : linkPattern txt url ≠ [] := by simp [linkPattern]
    have hL : emitLinks ((txt, url) :: ms) t =
        (match firstIndexOf (linkPattern txt url) t with
         | none => Except.error "Invalid markup: link not properly formatted"
         | some i =>
           match emitLinks ms (t.drop (i + (linkPattern txt url).length)) with
           | Except.error e => Except.error e
           | Except.ok rest =>
             Except.ok ((if t.take i = [] then [] else [⟨t.take i, TextType.text, none⟩]) ++
               ⟨txt, TextType.link, some url⟩ :: rest)) := by
      simp only [emitLinks, pySplitOnce_eq_firstIndexOf _ hne]
      cases firstIndexOf (linkPattern txt url) t with
      | none => rfl
      | some i => rfl
    rw [hL]
    cases hf : firstIndexOf (linkPattern txt url) t with
    | none => simp [linkEmitClaim, hf]
    | some i =>
      have htne : t ≠ [] := by
        intro he; rw [he] at hf; exact absurd hf (by simp [firstIndexOf])
      simp only [linkEmitClaim, hf, linkPattern_length, ih]
      cases linkEmitClaim ms (t.drop (i + (txt.length + url.length + 4))) with
      | error e => rfl
      | ok rest =>
        by_cases hi : i = 0
        · subst hi
          simp [List.take]
        · have htk : t.take i ≠ [] := by
            cases t with
            | nil => exact absurd rfl htne
            | cons a as =>
              cases i with
              | zero => exact absurd rfl hi
              | succ j => simp [List.take_succ_cons]
          rw [if_neg htk, if_neg hi]

/-- C7 counterexample: on the Plain span "![a](x)[a](x)" the regex matches
only the second bracket group (the first is preceded by '!'), but the text
is split at the first occurrence of the string "[a](x)", which sits inside
the image syntax: the '!'-preceded occurrence is consumed by the Link span
and the genuine occurrence's text is left as plain text, contrary to the
claim's prediction of Plain "![a](x)" followed by the Link. -/
theorem link_pass_counterexample :
    split_nodes_link [⟨str "![a](x)[a](x)", TextType.text, none⟩] =
      Except.ok [⟨str "!", TextType.text, none⟩, ⟨str "a", TextType.link, some (str "x")⟩,
        ⟨str "[a](x)", TextType.text, none⟩]
  ∧ [⟨str "!", TextType.text, none⟩, ⟨str "a", TextType.link, some (str "x")⟩,
      ⟨str "[a](x)", TextType.text, none⟩] ≠
    [⟨str "![a](x)", TextType.text, none⟩, (⟨str "a", TextType.link, some (str "x")⟩ : TextNode)] := by
  exact ⟨rfl, by decide⟩

/-- C7 (amended): the plain-link pass keeps non-Plain and zero-match spans
unchanged; for each regex match (text, url) of a Plain span, in
left-to-right order, it cuts the running text at the first occurrence of
the literal string "[text](url)" — which may precede the regex match
position, even inside an image occurrence preceded by '!' — emitting the
non-empty prefix as a Plain span, then the Link span carrying the captured
text and url; after the last match a non-empty remainder becomes a final
Plain span. -/
theorem link_pass_spec :
    ∀ ns : List TextNode, split_nodes_link ns = split_nodes_link_claim ns := by
  intro ns
  induction ns with
  | nil => rfl
  | cons n ns ih =>
    simp only [split_nodes_link, split_nodes_link_claim, exceptConcatMap]
    rw [← split_nodes_link_claim, ← ih]
    by_cases ht : n.text_type ≠ TextType.text
    · rw [if_pos ht, if_pos ht]
      cases split_nodes_link ns with
      | error e => rfl
      | ok t => simp [Except.map]
    · rw [if_neg ht, if_neg ht]
      cases hm : extract_markdown_links n.text with
      | nil =>
        rw [if_pos rfl]
        cases split_nodes_link ns with
        | error e => rfl
        | ok t => simp [Except.map]
      | cons m ms =>
        rw [if_neg (by simp), emitLinks_eq_claim]

theorem pySplitF_ne_nil (sep : Str) : ∀ (fuel : Nat) (s : Str), pySplitF sep fuel s ≠ [] := by
  intro fuel s
  match fuel, s with
  | _, [] => simp [pySplitF]
  | 0, c :: cs => simp [pySplitF]
  | fuel+1, c :: cs =>
    simp only [pySplitF]
    split
    · simp
    · split <;> simp

theorem joinSep_cons_head (sep : Str) (c : Char) (p : Str) (ps : List Str) :
    joinSep sep ((c :: p) :: ps) = c :: joinSep sep (p :: ps) := by
  cases ps with
  | nil => rfl
  | cons q qs => simp [joinSep]

theorem pySplitF_joinSep (sep : Str) (hsep : sep ≠ []) :
    ∀ (fuel : Nat) (s : Str), s.length ≤ fuel →
      joinSep sep (pySplitF sep fuel s) = s := by
  intro fuel
  induction fuel with
  | zero =>
    intro s hs
    have : s = [] := List.eq_nil_of_length_eq_zero (Nat.le_zero.mp hs)
    subst this
    rfl
  | succ fuel ih =>
    intro s hs
    cases s with
    | nil => rfl
    | cons c cs =>
      obtain ⟨s0, sep', hseq⟩ : ∃ s0 sep', sep = s0 :: sep' := by
        cases sep with
        | nil => exact absurd rfl hsep
        | cons s0 sep' => exact ⟨s0, sep', rfl⟩
      have hlen : cs.length ≤ fuel := by
        simp only [List.length_cons] at hs
        omega
      by_cases hp : sep.isPrefixOf (c :: cs) = true
      · have hcond : (sep.isPrefixOf (c :: cs) && !sep.isEmpty) = true := by
          simp [hp, List.isEmpty_iff, hsep]
        simp only [pySplitF, if_pos hcond]
        obtain ⟨t, ht⟩ := List.isPrefixOf_iff_prefix.mp hp
        have hcs : cs = sep' ++ t := by
          rw [hseq] at ht
          have ht' : s0 :: (sep' ++ t) = c :: cs := by simpa using ht
          injection ht' with h1 h2
          exact h2.symm
        have hdrop : cs.drop (sep.length - 1) = t := by
          rw [hseq, hcs]
          simp only [List.length_cons, Nat.add_sub_cancel]
          exact List.drop_left sep' t
        rw [hdrop]
        cases hsplit : pySplitF sep fuel t with
        | nil => exact absurd hsplit (pySplitF_ne_nil sep fuel t)
        | cons r rs =>
          have hjoin : joinSep sep (pySplitF sep fuel t) = t := by
            apply ih
            have : t.length ≤ cs.length := by
              rw [hcs]; simp
            omega
          rw [hsplit] at hjoin
          simp only [joinSep]
          rw [hjoin]
          rw [← ht]
          simp
      · have hcond : (sep.isPrefixOf (c :: cs) && !sep.isEmpty) = false := by
          simp [hp]
        simp only [pySplitF, hcond, Bool.false_eq_true, if_false]
        cases hsplit : pySplitF sep fuel cs with
        | nil => exact absurd hsplit (pySplitF_ne_nil sep fuel cs)
        | cons p ps =>
          show joinSep sep ((c :: p) :: ps) = c :: cs
          rw [joinSep_cons_head]
          have hjoin := ih cs hlen
          rw [hsplit] at hjoin
          rw [hjoin]

theorem pySplit_joinSep (sep : Str) (hsep : sep ≠ []) (s : Str) :
    joinSep sep (pySplit sep s) = s :=
  pySplitF_joinSep sep hsep s.length s (Nat.le_refl _)

theorem reconstruct_append (a b : List TextNode) :
    reconstruct (a ++ b) = reconstruct a ++ reconstruct b := by
  simp [reconstruct]

theorem reconstruct_cons (n : TextNode) (ns : List TextNode) :
    reconstruct (n :: ns) = rewrap n ++ reconstruct ns := by
  simp [reconstruct]

theorem emitParts_shift (k : TextType) : ∀ (ps : List Str) (i : Nat),
    emitParts k (i + 2) ps = emitParts k i ps := by
  intro ps
  induction ps with
  | nil => intro i; rfl
  | cons p ps ih =>
    intro i
    simp only [emitParts]
    have hmod : (i + 2) % 2 = i % 2 := by omega
    rw [hmod]
    have hih := ih (i + 1)
    have harith : i + 2 + 1 = i + 1 + 2 := by omega
    rw [harith, hih]

theorem emit_reconstruct (d : Str) (k : TextType)
    (hw : ∀ p : Str, rewrap ⟨p, k, none⟩ = d ++ p ++ d) :
    ∀ parts : List Str, parts.length % 2 = 1 → oddPartsNonempty parts = true →
      reconstruct (emitParts k 0 parts) = joinSep d parts
  | [] => by intro h _; simp at h
  | [p] => by
    intro _ _
    by_cases hp : p = []
    · subst hp
      rfl
    · show reconstruct ((if p = [] then [] else [⟨p, TextType.text, none⟩]) ++ []) = p
      rw [if_neg hp]
      simp [reconstruct, rewrap]
  | p0 :: p1 :: rest => by
    intro hlen hodd
    have hrlen : rest.length % 2 = 1 := by
      simp only [List.length_cons] at hlen
      omega
    have hrne : rest ≠ [] := by
      intro h; rw [h] at hrlen; simp at hrlen
    have hodd' : (!p1.isEmpty) = true ∧ oddPartsNonempty rest = true := by
      simpa only [oddPartsNonempty, Bool.and_eq_true] using hodd
    have hp1' : p1 ≠ [] := by
      simpa [List.isEmpty_iff] using hodd'.1
    have hrest := hodd'.2
    have ih := emit_reconstruct d k hw rest hrlen hrest
    obtain ⟨r, rs, hre⟩ : ∃ r rs, rest = r :: rs := by
      cases rest with
      | nil => exact absurd rfl hrne
      | cons r rs => exact ⟨r, rs, rfl⟩
    have hunfold : emitParts k 0 (p0 :: p1 :: rest) =
        (if p0 = [] then [] else [⟨p0, TextType.text, none⟩]) ++
        ((if p1 = [] then [] else [⟨p1, k, none⟩]) ++ emitParts k 0 rest) := by
      simp only [emitParts]
      norm_num
      have h2 := emitParts_shift k rest 0
      norm_num at h2
      rw [h2]
    rw [hunfold, reconstruct_append, reconstruct_append, ih]
    have he0 : reconstruct (if p0 = [] then [] else [⟨p0, TextType.text, none⟩]) = p0 := by
      by_cases hp0 : p0 = []
      · subst hp0; rfl
      · rw [if_neg hp0]; simp [reconstruct, rewrap]
    have he1 : reconstruct (if p1 = [] then [] else [⟨p1, k, none⟩]) = d ++ p1 ++ d := by
      rw [if_neg hp1']
      have : reconstruct [⟨p1, k, none⟩] = rewrap ⟨p1, k, none⟩ := by simp [reconstruct]
      rw [this, hw p1]
    rw [he0, he1]
    subst hre
    show p0 ++ (d ++ p1 ++ d ++ joinSep d (r :: rs)) = p0 ++ d ++ joinSep d (p1 :: r :: rs)
    simp only [joinSep]
    simp [List.append_assoc]

theorem delimiter_pass_reconstruct (d : Str) (k : TextType) (hd : d ≠ [])
    (hw : ∀ p : Str, rewrap ⟨p, k, none⟩ = d ++ p ++ d) :
    ∀ ns out, split_nodes_delimiter ns d k = Except.ok out →
      noEmptyOddParts d ns = true → reconstruct out = reconstruct ns := by
  intro ns
  induction ns with
  | nil =>
    intro out h _
    obtain rfl : ([] : List TextNode) = out := by
      simpa [split_nodes_delimiter] using h
    rfl
  | cons n ns ih =>
    intro out h hne
    have hne' : (n.text_type != TextType.text || oddPartsNonempty (pySplit d n.text)) = true
        ∧ noEmptyOddParts d ns = true := by
      simpa only [noEmptyOddParts, List.all_cons, Bool.and_eq_true] using hne
    simp only [split_nodes_delimiter] at h
    by_cases ht : n.text_type ≠ TextType.text
    · rw [if_pos ht] at h
      cases hrec : split_nodes_delimiter ns d k with
      | error e => rw [hrec] at h; exact absurd h (by simp [Except.map])
      | ok t =>
        rw [hrec] at h
        obtain rfl : n :: t = out := by simpa [Except.map] using h
        rw [reconstruct_cons, reconstruct_cons, ih t hrec hne'.2]
    · rw [if_neg ht] at h
      have htt : n.text_type = TextType.text := not_not.mp (by simpa using ht)
      by_cases heven : (pySplit d n.text).length % 2 = 0
      · rw [if_pos heven] at h
        exact absurd h (by simp)
      · rw [if_neg heven] at h
        cases hrec : split_nodes_delimiter ns d k with
        | error e => rw [hrec] at h; exact absurd h (by simp)
        | ok t =>
          rw [hrec] at h
          obtain rfl : emitParts k 0 (pySplit d n.text) ++ t = out := by simpa using h
          have hoddlen : (pySplit d n.text).length % 2 = 1 := by omega
          have hoddne : oddPartsNonempty (pySplit d n.text) = true := by
            have h1 := hne'.1
            rw [htt] at h1
            simpa using h1
          rw [reconstruct_append, reconstruct_cons,
            emit_reconstruct d k hw _ hoddlen hoddne, pySplit_joinSep d hd,
            ih t hrec hne'.2]
          have hrw : rewrap n = n.text := by
            simp [rewrap, htt]
          rw [hrw]

theorem pySplitOnce_append (sep : Str) (hsep : sep ≠ []) :
    ∀ (t pre post : Str), pySplitOnce sep t = some (pre, post) →
      pre ++ sep ++ post = t := by
  intro t
  induction t with
  | nil => intro pre post h; exact absurd h (by simp [pySplitOnce])
  | cons c cs ih =>
    intro pre post h
    obtain ⟨s0, sep', hseq⟩ : ∃ s0 sep', sep = s0 :: sep' := by
      cases sep with
      | nil => exact absurd rfl hsep
      | cons s0 sep' => exact ⟨s0, sep', rfl⟩
    simp only [pySplitOnce] at h
    by_cases hp : sep.isPrefixOf (c :: cs) = true
    · rw [if_pos hp] at h
      obtain ⟨hpre, hpost⟩ : ([] : Str) = pre ∧ cs.drop (sep.length - 1) = post := by
        have h' := h
        simp only [Option.some.injEq, Prod.mk.injEq] at h'
        exact h'
      obtain ⟨t0, ht⟩ := List.isPrefixOf_iff_prefix.mp hp
      have hcs : cs = sep' ++ t0 := by
        rw [hseq] at ht
        have ht' : s0 :: (sep' ++ t0) = c :: cs := by simpa using ht
        injection ht' with h1 h2
        exact h2.symm
      have hdrop : cs.drop (sep.length - 1) = t0 := by
        rw [hseq, hcs]
        simp only [List.length_cons, Nat.add_sub_cancel]
        exact List.drop_left sep' t0
      rw [hdrop] at hpost
      subst hpre
      subst hpost
      simpa using ht
    · rw [if_neg hp] at h
      cases hrec : pySplitOnce sep cs with
      | none => rw [hrec] at h; exact absurd h (by simp)
      | some pp =>
        obtain ⟨pre', post'⟩ := pp
        rw [hrec] at h
        obtain ⟨hpre, hpost⟩ : c :: pre' = pre ∧ post' = post := by
          have h' := h
          simp only [Option.some.injEq, Prod.mk.injEq] at h'
          exact h'
        have hih := ih pre' post' hrec
        rw [← hpre, ← hpost]
        simpa using hih

theorem imagePattern_ne_nil (alt url : Str) : imagePattern alt url ≠ [] := by
  intro h
  have hl := congrArg List.length h
  have h1 : (str "![").length = 2 := rfl
  have h2 : (str "](").length = 2 := rfl
  have h3 : (str ")").length = 1 := rfl
  simp only [imagePattern, List.length_append, h1, h2, h3, List.length_nil] at hl
  omega

theorem linkPattern_ne_nil (txt url : Str) : linkPattern txt url ≠ [] := by
  simp [linkPattern]

theorem emitImages_reconstruct : ∀ (ms : List (Str × Str)) (t : Str) (out : List TextNode),
    emitImages ms t = Except.ok out → reconstruct out = t := by
  intro ms
  induction ms with
  | nil =>
    intro t out h
    obtain rfl : (if t = [] then [] else [⟨t, TextType.text, none⟩]) = out := by
      simpa [emitImages] using h
    by_cases ht : t = []
    · simp [ht, reconstruct]
    · simp [ht, reconstruct, rewrap]
  | cons m ms ih =>
    intro t out h
    obtain ⟨alt, url⟩ := m
    cases hsp : pySplitOnce (imagePattern alt url) t with
    | none =>
      simp only [emitImages, hsp] at h
      exact absurd h (by simp)
    | some pp =>
      obtain ⟨pre, post⟩ := pp
      simp only [emitImages, hsp] at h
      cases hrec : emitImages ms post with
      | error e =>
        simp only [hrec] at h
        exact absurd h (by simp)
      | ok rest =>
        simp only [hrec] at h
        obtain rfl : (if pre = [] then [] else [⟨pre, TextType.text, none⟩]) ++
            ⟨alt, TextType.image, some url⟩ :: rest = out := by simpa using h
        have happ := pySplitOnce_append _ (imagePattern_ne_nil alt url) t pre post hsp
        rw [reconstruct_append, reconstruct_cons, ih post rest hrec]
        have hpre : reconstruct (if pre = [] then [] else [⟨pre, TextType.text, none⟩]) = pre := by
          by_cases hp : pre = []
          · simp [hp, reconstruct]
          · simp [hp, reconstruct, rewrap]
        have himg : rewrap ⟨alt, TextType.image, some url⟩ = imagePattern alt url := rfl
        rw [hpre, himg, ← happ]
        simp [List.append_assoc]

theorem emitLinks_reconstruct : ∀ (ms : List (Str × Str)) (t : Str) (out : List TextNode),
    emitLinks ms t = Except.ok out → reconstruct out = t := by
  intro ms
  induction ms with
  | nil =>
    intro t out h
    obtain rfl : (if t = [] then [] else [⟨t, TextType.text, none⟩]) = out := by
      simpa [emitLinks] using h
    by_cases ht : t = []
    · simp [ht, reconstruct]
    · simp [ht, reconstruct, rewrap]
  | cons m ms ih =>
    intro t out h
    obtain ⟨txt, url⟩ := m
    cases hsp : pySplitOnce (linkPattern txt url) t with
    | none =>
      simp only [emitLinks, hsp] at h
      exact absurd h (by simp)
    | some pp =>
      obtain ⟨pre, post⟩ := pp
      simp only [emitLinks, hsp] at h
      cases hrec : emitLinks ms post with
      | error e =>
        simp only [hrec] at h
        exact absurd h (by simp)
      | ok rest =>
        simp only [hrec] at h
        obtain rfl : (if pre = [] then [] else [⟨pre, TextType.text, none⟩]) ++
            ⟨txt, TextType.link, some url⟩ :: rest = out := by simpa using h
        have happ := pySplitOnce_append _ (linkPattern_ne_nil txt url) t pre post hsp
        rw [reconstruct_append, reconstruct_cons, ih post rest hrec]
        have hpre : reconstruct (if pre = [] then [] else [⟨pre, TextType.text, none⟩]) = pre := by
          by_cases hp : pre = []
          · simp [hp, reconstruct]
          · simp [hp, reconstruct, rewrap]
        have hlnk : rewrap ⟨txt, TextType.link, some url⟩ = linkPattern txt url := rfl
        rw [hpre, hlnk, ← happ]
        simp [List.append_assoc]

theorem image_pass_reconstruct : ∀ ns out, split_nodes_image ns = Except.ok out →
    reconstruct out = reconstruct ns := by
  intro ns
  induction ns with
  | nil =>
    intro out h
    obtain rfl : ([] : List TextNode) = out := by simpa [split_nodes_image] using h
    rfl
  | cons n ns ih =>
    intro out h
    simp only [split_nodes_image] at h
    by_cases ht : n.text_type ≠ TextType.text
    · rw [if_pos ht] at h
      cases hrec : split_nodes_image ns with
      | error e => rw [hrec] at h; exact absurd h (by simp [Except.map])
      | ok t =>
        rw [hrec] at h
        obtain rfl : n :: t = out := by simpa [Except.map] using h
        rw [reconstruct_cons, reconstruct_cons, ih t hrec]
    · rw [if_neg ht] at h
      have htt : n.text_type = TextType.text := not_not.mp (by simpa using ht)
      by_cases hm : extract_markdown_images n.text = []
      · rw [if_pos hm] at h
        cases hrec : split_nodes_image ns with
        | error e => rw [hrec] at h; exact absurd h (by simp [Except.map])
        | ok t =>
          rw [hrec] at h
          obtain rfl : n :: t = out := by simpa [Except.map] using h
          rw [reconstruct_cons, reconstruct_cons, ih t hrec]
      · rw [if_neg hm] at h
        cases hown : emitImages (extract_markdown_images n.text) n.text with
        | error e => rw [hown] at h; exact absurd h (by simp)
        | ok own =>
          rw [hown] at h
          cases hrec : split_nodes_image ns with
          | error e => rw [hrec] at h; exact absurd h (by simp)
          | ok t =>
            rw [hrec] at h
            obtain rfl : own ++ t = out := by simpa using h
            rw [reconstruct_append, reconstruct_cons, ih t hrec,
              emitImages_reconstruct _ _ _ hown]
            have hrw : rewrap n = n.text := by simp [rewrap, htt]
            rw [hrw]

theorem link_pass_reconstruct : ∀ ns out, split_nodes_link ns = Except.ok out →
    reconstruct out = reconstruct ns := by
  intro ns
  induction ns with
  | nil =>
    intro out h
    obtain rfl : ([] : List TextNode) = out := by simpa [split_nodes_link] using h
    rfl
  | cons n ns ih =>
    intro out h
    simp only [split_nodes_link] at h
    by_cases ht : n.text_type ≠ TextType.text
    · rw [if_pos ht] at h
      cases hrec : split_nodes_link ns with
      | error e => rw [hrec] at h; exact absurd h (by simp [Except.map])
      | ok t =>
        rw [hrec] at h
        obtain rfl : n :: t = out := by simpa [Except.map] using h
        rw [reconstruct_cons, reconstruct_cons, ih t hrec]
    · rw [if_neg ht] at h
      have htt : n.text_type = TextType.text := not_not.mp (by simpa using ht)
      by_cases hm : extract_markdown_links n.text = []
      · rw [if_pos hm] at h
        cases hrec : split_nodes_link ns with
        | error e => rw [hrec] at h; exact absurd h (by simp [Except.map])
        | ok t =>
          rw [hrec] at h
          obtain rfl : n :: t = out := by simpa [Except.map] using h
          rw [reconstruct_cons, reconstruct_cons, ih t hrec]
      · rw [if_neg hm] at h
        cases hown : emitLinks (extract_markdown_links n.text) n.text with
        | error e => rw [hown] at h; exact absurd h (by simp)
        | ok own =>
          rw [hown] at h
          cases hrec : split_nodes_link ns with
          | error e => rw [hrec] at h; exact absurd h (by simp)
          | ok t =>
            rw [hrec] at h
            obtain rfl : own ++ t = out := by simpa using h
            rw [reconstruct_append, reconstruct_cons, ih t hrec,
              emitLinks_reconstruct _ _ _ hown]
            have hrw : rewrap n = n.text := by simp [rewrap, htt]
            rw [hrw]

/-- C2 counterexample: "a****b" splits on "**" into ["a", "", "b"]; the
empty odd-indexed part is dropped together with its delimiter pair, so the
re-wrapped concatenation of the output spans is "ab", not the original
text. -/
theorem splitInline_reconstruct_counterexample :
    text_to_text_nodes (str "a****b") =
      Except.ok [⟨str "a", TextType.text, none⟩, ⟨str "b", TextType.text, none⟩]
  ∧ reconstruct [⟨str "a", TextType.text, none⟩, ⟨str "b", TextType.text, none⟩] ≠
      str "a****b" := ⟨rfl, by decide⟩

/-- C2 (amended): for every input on which the splitter succeeds and on
which no delimiter pass (bold, italic, code) splits a Plain span with an
empty odd-indexed part, concatenating the spans' contents — Bold re-wrapped
in ** , Italic in _ , Code in backticks, Image as ![content](target), Link
as [content](target) — reconstructs the original text: the splitter never
reorders, duplicates, or drops characters outside of delimiter/syntax
markers, except that an empty delimited part is dropped together with its
delimiter pair. -/
theorem splitInline_reconstruct :
    ∀ (t : Str) (out : List TextNode), text_to_text_nodes t = Except.ok out →
      pipelineClean t = true → reconstruct out = t := by
  intro t out h hc
  have hwb : ∀ p : Str, rewrap ⟨p, TextType.bold, none⟩ = str "**" ++ p ++ str "**" :=
    fun p => rfl
  have hwi : ∀ p : Str, rewrap ⟨p, TextType.italic, none⟩ = str "_" ++ p ++ str "_" :=
    fun p => rfl
  have hwc : ∀ p : Str, rewrap ⟨p, TextType.code, none⟩ = str "`" ++ p ++ str "`" :=
    fun p => rfl
  simp only [text_to_text_nodes, bind, Except.bind] at h
  cases h1 : split_nodes_delimiter [⟨t, TextType.text, none⟩] (str "**") TextType.bold with
  | error e => simp only [h1] at h; exact absurd h (by simp)
  | ok ns1 =>
    simp only [h1] at h
    cases h2 : split_nodes_delimiter ns1 (str "_") TextType.italic with
    | error e => simp only [h2] at h; exact absurd h (by simp)
    | ok ns2 =>
      simp only [h2] at h
      cases h3 : split_nodes_delimiter ns2 (str "`") TextType.code with
      | error e => simp only [h3] at h; exact absurd h (by simp)
      | ok ns3 =>
        simp only [h3] at h
        cases h4 : split_nodes_image ns3 with
        | error e => simp only [h4] at h; exact absurd h (by simp)
        | ok ns4 =>
          simp only [h4] at h
          have hcc : noEmptyOddParts (str "**") [⟨t, TextType.text, none⟩] = true ∧
              noEmptyOddParts (str "_") ns1 = true ∧
              noEmptyOddParts (str "`") ns2 = true := by
            simp only [pipelineClean, h1, h2, Bool.and_eq_true] at hc
            exact ⟨hc.1, hc.2.1, hc.2.2⟩
          have e1 := delimiter_pass_reconstruct (str "**") TextType.bold (by decide) hwb
            [⟨t, TextType.text, none⟩] ns1 h1 hcc.1
          have e2 := delimiter_pass_reconstruct (str "_") TextType.italic (by decide) hwi
            ns1 ns2 h2 hcc.2.1
          have e3 := delimiter_pass_reconstruct (str "`") TextType.code (by decide) hwc
            ns2 ns3 h3 hcc.2.2
          have e4 := image_pass_reconstruct ns3 ns4 h4
          have e5 := link_pass_reconstruct ns4 out h
          rw [e5, e4, e3, e2, e1]
          simp [reconstruct, rewrap]

theorem splitInline_reconstruct_witness :
    text_to_text_nodes (str "x **y**") =
      Except.ok [⟨str "x ", TextType.text, none⟩, ⟨str "y", TextType.bold, none⟩]
  ∧ pipelineClean (str "x **y**") = true
  ∧ reconstruct [⟨str "x ", TextType.text, none⟩, ⟨str "y", TextType.bold, none⟩] =
      str "x **y**" := by
  refine ⟨rfl, rfl, splitInline_reconstruct (str "x **y**") _ rfl rfl⟩
